import Mathlib

set_option maxRecDepth 8000

/-!
Verification development for the SPFetcherBase repository.

The definitions below are a shallow embedding of the request-orchestration
layer found in `src/SPFetcher.initializer.ts`, `src/SPFetcher.utils.ts`
(`getContentTypeIds`) and `src/SPFetcherBase.ts` (taxonomy path resolution
and construction).  Stateful code is rendered as explicit state passing over
a `FetcherState` record; the cooperative single-threaded scheduling model of
the runtime means each synchronous block between suspension points is one
atomic step here.  Network effects are rendered as ghost logs (`timers`,
`executed`, `assignments`, `lookupsIssued`, `ctReceived`, `invoked`) so that
theorems can speak about which external actions were triggered.
-/

namespace SPF

/-- Association-list lookup keyed by strings; models reading a field of a
JavaScript object used as a dictionary, where an absent or cleared key reads
as `undefined`. -/
def assocGet {α : Type} : List (String × α) → String → Option α
  | [], _ => none
  | p :: rest, k => if p.1 = k then some p.2 else assocGet rest k

/-- Association-list update; models assigning to a key of a JavaScript
object used as a dictionary. -/
def assocSet {α : Type} : List (String × α) → String → α → List (String × α)
  | [], k, v => [(k, v)]
  | p :: rest, k, v => if p.1 = k then (k, v) :: rest else p :: assocSet rest k v

/-- Association-list removal; models `obj[key] = undefined`, after which the
key reads as absent. -/
def assocErase {α : Type} : List (String × α) → String → List (String × α)
  | [], _ => []
  | p :: rest, k => if p.1 = k then assocErase rest k else p :: assocErase rest k

/-- The status enumeration of the fetcher
(`'not initialized' | 'initializing' | 'ready' | 'error'`). -/
inductive Status where
  | notInitialized
  | initializing
  | ready
  | error
deriving DecidableEq, Repr

/-- One slot of the auto-batch table: the shared batch handle (identified by
a number) and its pending-operation count (`{ batch, count }` in the source). -/
structure Slot where
  batchId : Nat
  count : Nat
deriving DecidableEq, Repr

/-- One entry of the content-type cache of `getContentTypeIds`
(`{ callbacks, StringIds }` in the source). -/
structure CTEntry where
  callbacks : List Nat
  StringIds : Option (List String)
deriving DecidableEq, Repr

/-- The `sites` record of the fetcher; the source keys it by site aliases and
always writes the `default`, `current` and `base` keys during init. -/
structure SitesRec where
  site_default : Option String
  site_current : Option String
  site_base : Option String
deriving DecidableEq, Repr

/-- The `urls` record of the fetcher (`absolute` and `base`). -/
structure UrlsRec where
  absolute : Option String
  base : Option String
deriving DecidableEq, Repr

/-- The whole mutable state of one fetcher instance, together with ghost
observation logs.  `queue` holds identifiers of queued continuations;
`invoked` logs continuations that have been resolved; `webs` maps a site key
to a constructed web-handle identifier; `batches` is the auto-batch table;
`timers` logs scheduled batch-window timers as (key, captured batch);
`executed` logs committed batches; `assignments` logs which batch handle each
factory invocation returned; `lookupsIssued` and `ctReceived` log the
content-type cache activity. -/
structure FetcherState where
  status : Status
  context : Option String
  queue : List Nat
  invoked : List Nat
  sites : SitesRec
  urls : UrlsRec
  lists : List (String × String)
  termsets : List (String × String)
  webs : List (String × Nat)
  batches : List (String × Slot)
  contentTypes : List (String × CTEntry)
  nextWebId : Nat
  nextBatchId : Nat
  timers : List (String × Nat)
  executed : List Nat
  assignments : List (Nat × Nat)
  lookupsIssued : List String
  ctReceived : List (Nat × List String)
deriving DecidableEq, Repr

/-- The state produced by the constructor: status `not initialized`, empty
queue, empty tables. -/
def initialState : FetcherState :=
  { status := .notInitialized
  , context := none
  , queue := []
  , invoked := []
  , sites := ⟨none, none, none⟩
  , urls := ⟨none, none⟩
  , lists := []
  , termsets := []
  , webs := []
  , batches := []
  , contentTypes := []
  , nextWebId := 0
  , nextBatchId := 0
  , timers := []
  , executed := []
  , assignments := []
  , lookupsIssued := []
  , ctReceived := [] }

/-- Embedding of `ready()`: resolve the continuation `k` immediately when the
status is `ready` or `initializing`, otherwise push it onto the queue. -/
def readyStep (s : FetcherState) (k : Nat) : FetcherState :=
  if s.status = .ready ∨ s.status = .initializing then
    { s with invoked := s.invoked ++ [k] }
  else
    { s with queue := s.queue ++ [k] }

/-- Embedding of the body of `Web(site)` after its `ready()` gate:
`this.webs[site] = this.webs[site] || Web(this.sites[site])`.  A fresh handle
identifier is drawn from `nextWebId` when the key is uncached. -/
def webStep (s : FetcherState) (site : String) : FetcherState × Nat :=
  match assocGet s.webs site with
  | some h => (s, h)
  | none =>
      ({ s with webs := assocSet s.webs site s.nextWebId
              , nextWebId := s.nextWebId + 1 }, s.nextWebId)

/-- Embedding of the synchronous part of `initialize` taken when the status
is not `initializing`: set status to `initializing`, store the context,
derive the `sites` and `urls` entries, and construct the default web handle.
`base` stands for the result of the `/(.*).sharepoint.com/` match on the
absolute url. -/
def initStart (s : FetcherState) (ctx base : String) : FetcherState :=
  let s1 :=
    { s with status := .initializing
           , context := some ctx
           , sites := ⟨some ctx, some ctx, some base⟩
           , urls := ⟨some ctx, some base⟩ }
  (webStep s1 "default").1

/-- Embedding of the continuation of `initialize` once `startupRoutines`
settles: on success set status to `ready`, invoke every queued continuation
in FIFO order and clear the queue; on failure set status to `error` and
re-throw, leaving the queue untouched. -/
def initFinish (s : FetcherState) (startup : Except String Unit) :
    FetcherState × Except String Unit :=
  match startup with
  | .ok _ =>
      ({ s with status := .ready
              , invoked := s.invoked ++ s.queue
              , queue := [] }, .ok ())
  | .error e => ({ s with status := .error }, .error e)

/-- Embedding of one whole `initialize(context)` call whose startup outcome
is `startup`.  When the status is already `initializing` the resolver `k` is
queued and the call stays pending (`none`); otherwise the full chain runs and
yields the propagated outcome. -/
def initCall (s : FetcherState) (ctx base : String) (k : Nat)
    (startup : Except String Unit) : FetcherState × Option (Except String Unit) :=
  if s.status = .initializing then
    ({ s with queue := s.queue ++ [k] }, none)
  else
    let r := initFinish (initStart s ctx base) startup
    (r.1, some r.2)

/-- The batch table key built by `autoBatch`: the template string
`[TIMEOUTms] - SITE`. -/
def mkBatchKey (timeout : Nat) (site : String) : String :=
  "[" ++ toString timeout ++ "ms] - " ++ site

/-- Embedding of one invocation of the factory closure returned by
`autoBatch`: retire the slot when its count has reached 50, open a fresh slot
(scheduling its window timer) when none is active, then increment the count
and hand the caller the slot batch handle.  `op` is the ghost identity of the
calling operation, logged in `assignments`. -/
def invokeStep (s : FetcherState) (key : String) (op : Nat) : FetcherState × Nat :=
  let s1 :=
    match assocGet s.batches key with
    | some slot =>
        if 50 ≤ slot.count then { s with batches := assocErase s.batches key } else s
    | none => s
  match assocGet s1.batches key with
  | some slot =>
      ({ s1 with batches := assocSet s1.batches key ⟨slot.batchId, slot.count + 1⟩
               , assignments := s1.assignments ++ [(op, slot.batchId)] }, slot.batchId)
  | none =>
      ({ s1 with batches := assocSet s1.batches key ⟨s1.nextBatchId, 1⟩
               , nextBatchId := s1.nextBatchId + 1
               , timers := s1.timers ++ [(key, s1.nextBatchId)]
               , assignments := s1.assignments ++ [(op, s1.nextBatchId)] }, s1.nextBatchId)

/-- Embedding of the firing of one window timer scheduled by `autoBatch`:
clear the active slot for the key, then (after the five-millisecond grace
delay, which is collapsed here because nothing observable separates the two
steps for the stated claims) execute the captured batch. -/
def fireTimer (s : FetcherState) (kb : String × Nat) : FetcherState :=
  { s with batches := assocErase s.batches kb.1
         , executed := s.executed ++ [kb.2] }

/-- Run a list of factory invocations in order, collecting the batch handle
each caller received. -/
def runInvokes (s : FetcherState) (key : String) : List Nat → FetcherState × List Nat
  | [] => (s, [])
  | op :: ops =>
      let r := invokeStep s key op
      let rest := runInvokes r.1 key ops
      (rest.1, r.2 :: rest.2)

/-- Run a number of `Web(site)` requests in order, collecting the handle each
caller received. -/
def runWebSteps (s : FetcherState) (site : String) : Nat → FetcherState × List Nat
  | 0 => (s, [])
  | n + 1 =>
      let r := webStep s site
      let rest := runWebSteps r.1 site n
      (rest.1, r.2 :: rest.2)

/-- The content-type cache key built by `getContentTypeIds`:
`[SITE]-[LIST]` with the fallback words for absent parts. -/
def ctKey (site list : Option String) : String :=
  "[" ++ site.getD "site" ++ "]-[" ++ list.getD "list" ++ "]"

/-- Embedding of one call to `getContentTypeIds` by waiter `wid`: serve a
resolved entry from the cache, join the waiter list of an in-flight entry, or
create the entry and issue the single underlying lookup. -/
def ctRequest (s : FetcherState) (key : String) (wid : Nat) : FetcherState :=
  match assocGet s.contentTypes key with
  | some e =>
      match e.StringIds with
      | some ids => { s with ctReceived := s.ctReceived ++ [(wid, ids)] }
      | none =>
          { s with contentTypes :=
              assocSet s.contentTypes key ⟨e.callbacks ++ [wid], none⟩ }
  | none =>
      { s with contentTypes := assocSet s.contentTypes key ⟨[wid], none⟩
             , lookupsIssued := s.lookupsIssued ++ [key] }

/-- Embedding of the completion of the underlying content-type lookup with
result `ids`: store the resolved identifiers, invoke every registered waiter
with the identical result in order, and clear the waiter list. -/
def ctResolve (s : FetcherState) (key : String) (ids : List String) : FetcherState :=
  match assocGet s.contentTypes key with
  | some e =>
      { s with contentTypes := assocSet s.contentTypes key ⟨[], some ids⟩
             , ctReceived := s.ctReceived ++ e.callbacks.map (fun w => (w, ids)) }
  | none => s

/-- Helper for `splitSemi`: split a character list at every `;`, keeping the
accumulated current segment reversed. -/
def splitSemiAux : List Char → List Char → List (List Char)
  | [], acc => [acc.reverse]
  | c :: cs, acc =>
      if c = ';' then acc.reverse :: splitSemiAux cs []
      else splitSemiAux cs (c :: acc)

/-- Embedding of the JavaScript `path.split(';')` (a one-character
separator): the empty string yields `[""]`, adjacent separators yield empty
segments, exactly as in the runtime.  Implemented structurally over the
character list so closed instances evaluate inside the kernel. -/
def splitSemi (s : String) : List String :=
  (splitSemiAux s.data []).map List.asString

/-- The fields of a taxonomy term used by the resolver (`ITerm` in
`interfaces.ts`, restricted to the fields the algorithms read). -/
structure ITerm where
  Id : String
  Name : String
  IsRoot : Bool
  PathOfTerm : String
deriving DecidableEq, Repr

/-- Join of the first `i + 1` segments of the requested path
(`split_path.slice(0, idx + 1).join(';')`). -/
def joinTake (split_path : List String) (i : Nat) : String :=
  String.intercalate ";" (List.take (i + 1) split_path)

/-- The inner reduction of `getTaxonomyClosestParent`: the score of one term
is set to every index whose prefix join equals the stored `PathOfTerm`,
starting from `-1`, so the final value is the greatest matching index. -/
def termScore (split_path : List String) (term : ITerm) : Int :=
  (List.range split_path.length).foldl
    (fun score idx => if joinTake split_path idx = term.PathOfTerm then (idx : Int) else score)
    (-1)

/-- Embedding of `getTaxonomyClosestParent(termset_id, new_path)` applied to
the term list returned by `getTermsetById`: split the path on `;`, score
every term, and keep the first term attaining a strictly greater score than
the running maximum, starting from `(-1, undefined)`. -/
def getTaxonomyClosestParent (terms : List ITerm) (new_path : String) :
    Int × Option ITerm :=
  let split_path := splitSemi new_path
  terms.foldl
    (fun acc term =>
      let score := termScore split_path term
      if acc.1 < score then (score, some term) else acc)
    (-1, none)

/-- The request body of `addTaxonomyItem` (`CreateTaxonomyItem`), keeping the
fields the source fills in. -/
structure CreateReq where
  sspId : String
  lcid : Nat
  parentType : Nat
  parentId : String
  termsetId : String
  newName : String
deriving DecidableEq, Repr

/-- The fold of `getTaxonomyClosestParent` over the term list, abstracted
over its starting accumulator so the reduction can be reasoned about by
induction; `getTaxonomyClosestParent terms p` is definitionally
`closestFold (splitSemi p) terms (-1, none)`. -/
def closestFold (split : List String) (terms : List ITerm)
    (acc : Int × Option ITerm) : Int × Option ITerm :=
  terms.foldl
    (fun acc term =>
      let score := termScore split term
      if acc.1 < score then (score, some term) else acc)
    acc

/-- The body of `addTaxonomyItem` as called by `buildTaxonomyPath`: a matched
parent term is sent with `IsRoot` forced false, hence parent type 4 and the
term id as parent; an absent match sends the termset itself as root parent,
type 3. -/
def buildParentReq (sspid termset_id new_name : String)
    (term : Option ITerm) : CreateReq :=
  match term with
  | some t =>
      { sspId := sspid, lcid := 1033, parentType := 4
      , parentId := t.Id, termsetId := termset_id, newName := new_name }
  | none =>
      { sspId := sspid, lcid := 1033, parentType := 3
      , parentId := termset_id, termsetId := termset_id
      , newName := new_name }

/-- The message of the `Error` thrown by `buildTaxonomyPath` when the next
segment to create equals the segment just created. -/
def buildFailMsg (new_name termset_id sspid : String) : String :=
  "Failed to add \x27" ++ new_name ++ "\x27 to termset. termsetId: " ++
    termset_id ++ ", sspid: " ++ sspid

/-- Embedding of `buildTaxonomyPath(sspid, termset_id, new_path, prev_name)`.
The remote term store is a term list threaded through `env`, the effect of
one `addTaxonomyItem` write; `fuel` bounds the recursion depth so the
definition is total, with `none` in the first component marking exhausted
fuel.  The second component logs the creation writes issued, in order.
One step resolves the closest parent, reads the next segment
(`split_path[highscore + 1]`); an absent segment resolves `true`; a segment
equal to `prev_name` throws; an empty-string segment is falsy in the source
conditional and also resolves `true`; otherwise the step issues the creation
write (parent type 4 for a matched term with `IsRoot` forced false, parent
type 3 with the termset as parent when no term matched) and recurses with
`prev_name` set to the created segment. -/
def buildTaxonomyPath (env : List ITerm → CreateReq → List ITerm) (fuel : Nat)
    (store : List ITerm) (sspid termset_id new_path prev_name : String) :
    Option (Except String Bool) × List CreateReq :=
  match fuel with
  | 0 => (none, [])
  | fuel + 1 =>
      let split_path := splitSemi new_path
      let res := getTaxonomyClosestParent store new_path
      match split_path[(res.1 + 1).toNat]? with
      | none => (some (.ok true), [])
      | some new_name =>
          if new_name = prev_name then
            (some (.error (buildFailMsg new_name termset_id sspid)), [])
          else if new_name = "" then
            (some (.ok true), [])
          else
            let req := buildParentReq sspid termset_id new_name res.2
            let rest :=
              buildTaxonomyPath env fuel (env store req) sspid termset_id
                new_path new_name
            (rest.1, req :: rest.2)

/-! ### ReadyGate lemmas -/

theorem readyStep_blocked (s : FetcherState) (k : Nat)
    (h : s.status = .notInitialized ∨ s.status = .error) :
    readyStep s k = { s with queue := s.queue ++ [k] } := by
  rcases h with h | h <;> simp [readyStep, h]

theorem foldl_readyStep_blocked (ids : List Nat) :
    ∀ s : FetcherState, s.status = .notInitialized ∨ s.status = .error →
      ids.foldl readyStep s = { s with queue := s.queue ++ ids } := by
  induction ids with
  | nil => intro s _; simp
  | cons k ids ih =>
      intro s h
      have hs : readyStep s k = { s with queue := s.queue ++ [k] } :=
        readyStep_blocked s k h
      have h2 : ({ s with queue := s.queue ++ [k] } : FetcherState).status =
          .notInitialized ∨
          ({ s with queue := s.queue ++ [k] } : FetcherState).status = .error := h
      calc (k :: ids).foldl readyStep s = ids.foldl readyStep (readyStep s k) := rfl
        _ = ids.foldl readyStep { s with queue := s.queue ++ [k] } := by rw [hs]
        _ = { s with queue := (s.queue ++ [k]) ++ ids } := ih _ h2
        _ = { s with queue := s.queue ++ k :: ids } := by
              simp

theorem webStep_frame (s : FetcherState) (site : String) :
    (webStep s site).1.status = s.status ∧ (webStep s site).1.queue = s.queue ∧
      (webStep s site).1.invoked = s.invoked := by
  unfold webStep
  cases assocGet s.webs site <;> simp

theorem initStart_frame (s : FetcherState) (ctx base : String) :
    (initStart s ctx base).status = .initializing ∧
      (initStart s ctx base).queue = s.queue ∧
      (initStart s ctx base).invoked = s.invoked := by
  unfold initStart
  obtain ⟨h1, h2, h3⟩ := webStep_frame
    { s with status := .initializing
           , context := some ctx
           , sites := ⟨some ctx, some ctx, some base⟩
           , urls := ⟨some ctx, some base⟩ } "default"
  exact ⟨h1, h2, h3⟩

/-- C1.  Continuations queued by `ready()` while the status is
`not initialized` are all invoked, exactly once each, in enqueue order,
when a successful `initialize` finishes: the final status is `ready`, the
invocation log extends by exactly the queued continuations in FIFO order,
and the queue is empty afterwards. -/
theorem spec_C1_pending_queue_fifo_drain (s : FetcherState) (ids : List Nat)
    (ctx base : String) (k : Nat) (h : s.status = .notInitialized) :
    (initCall (ids.foldl readyStep s) ctx base k (.ok ())).2 = some (.ok ()) ∧
      (initCall (ids.foldl readyStep s) ctx base k (.ok ())).1.status = .ready ∧
      (initCall (ids.foldl readyStep s) ctx base k (.ok ())).1.invoked =
        s.invoked ++ (s.queue ++ ids) ∧
      (initCall (ids.foldl readyStep s) ctx base k (.ok ())).1.queue = [] := by
  rw [foldl_readyStep_blocked ids s (Or.inl h)]
  have hq : ({ s with queue := s.queue ++ ids } : FetcherState).status ≠
      .initializing := by simp [h]
  obtain ⟨h1, h2, h3⟩ :=
    initStart_frame { s with queue := s.queue ++ ids } ctx base
  simp [initCall, if_neg hq, initFinish, h2, h3]

theorem spec_C1_witness :
    (initCall ([3, 4].foldl readyStep initialState) "u" "b" 0 (.ok ())).2 =
        some (.ok ()) ∧
      (initCall ([3, 4].foldl readyStep initialState) "u" "b" 0
          (.ok ())).1.status = .ready ∧
      (initCall ([3, 4].foldl readyStep initialState) "u" "b" 0
          (.ok ())).1.invoked = [3, 4] ∧
      (initCall ([3, 4].foldl readyStep initialState) "u" "b" 0
          (.ok ())).1.queue = [] := by
  have h := spec_C1_pending_queue_fifo_drain initialState [3, 4] "u" "b" 0 rfl
  simpa [initialState] using h

/-- C3.  When `startupRoutines` rejects, `initialize` sets the status to
`error` and re-throws the failure; the queued continuations are not invoked
then, and any number of later `ready()` calls only ever enqueue, never
resolve, while the status stays `error`. -/
theorem spec_C3_error_terminality (s : FetcherState) (ids more : List Nat)
    (ctx base : String) (k : Nat) (e : String) (h : s.status = .notInitialized) :
    (initCall (ids.foldl readyStep s) ctx base k (.error e)).2 =
        some (.error e) ∧
      (initCall (ids.foldl readyStep s) ctx base k (.error e)).1.status =
        .error ∧
      (initCall (ids.foldl readyStep s) ctx base k (.error e)).1.invoked =
        s.invoked ∧
      (initCall (ids.foldl readyStep s) ctx base k (.error e)).1.queue =
        s.queue ++ ids ∧
      (more.foldl readyStep
        (initCall (ids.foldl readyStep s) ctx base k (.error e)).1).invoked =
        s.invoked ∧
      (more.foldl readyStep
        (initCall (ids.foldl readyStep s) ctx base k (.error e)).1).status =
        .error := by
  rw [foldl_readyStep_blocked ids s (Or.inl h)]
  have hq : ({ s with queue := s.queue ++ ids } : FetcherState).status ≠
      .initializing := by simp [h]
  obtain ⟨h1, h2, h3⟩ :=
    initStart_frame { s with queue := s.queue ++ ids } ctx base
  simp only [initCall, if_neg hq, initFinish]
  rw [foldl_readyStep_blocked more _ (Or.inr rfl)]
  simp [h2, h3]

theorem spec_C3_witness :
    (initCall ([3, 4].foldl readyStep initialState) "u" "b" 0
        (.error "boom")).2 = some (.error "boom") ∧
      (initCall ([3, 4].foldl readyStep initialState) "u" "b" 0
          (.error "boom")).1.status = .error ∧
      ([9].foldl readyStep
        (initCall ([3, 4].foldl readyStep initialState) "u" "b" 0
          (.error "boom")).1).invoked = [] := by
  have h := spec_C3_error_terminality initialState [3, 4] [9] "u" "b" 0 "boom" rfl
  exact ⟨h.1, h.2.1, h.2.2.2.2.1⟩

/-- C10.  `ready()` is frame-safe: it never changes the status, context,
urls, sites, lists, termsets, webs, batches, content-type cache, counters or
any of the network logs; its only state effect is appending the one
continuation to the queue when the status is `not initialized` or `error`,
and it leaves even the queue unchanged when the status is `ready` or
`initializing`. -/
theorem spec_C10_ready_frame (s : FetcherState) (k : Nat) :
    (readyStep s k).status = s.status ∧
      (readyStep s k).context = s.context ∧
      (readyStep s k).sites = s.sites ∧
      (readyStep s k).urls = s.urls ∧
      (readyStep s k).lists = s.lists ∧
      (readyStep s k).termsets = s.termsets ∧
      (readyStep s k).webs = s.webs ∧
      (readyStep s k).batches = s.batches ∧
      (readyStep s k).contentTypes = s.contentTypes ∧
      (readyStep s k).nextWebId = s.nextWebId ∧
      (readyStep s k).nextBatchId = s.nextBatchId ∧
      (readyStep s k).timers = s.timers ∧
      (readyStep s k).executed = s.executed ∧
      (readyStep s k).assignments = s.assignments ∧
      (readyStep s k).lookupsIssued = s.lookupsIssued ∧
      (readyStep s k).ctReceived = s.ctReceived ∧
      ((s.status = .notInitialized ∨ s.status = .error) →
        (readyStep s k).queue = s.queue ++ [k]) ∧
      ((s.status = .ready ∨ s.status = .initializing) →
        (readyStep s k).queue = s.queue) := by
  cases hs : s.status <;> simp [readyStep, hs]

theorem spec_C10_witness :
    (readyStep initialState 7).queue = initialState.queue ++ [7] ∧
      (readyStep initialState 7).status = initialState.status ∧
      (readyStep initialState 7).batches = initialState.batches := by
  obtain ⟨h1, _, _, _, _, _, _, h8, _, _, _, _, _, _, _, _, h17, -⟩ :=
    spec_C10_ready_frame initialState 7
  exact ⟨h17 (Or.inl rfl), h1, h8⟩

/-! ### Association-list lemmas -/

theorem assocGet_set_self {α : Type} (l : List (String × α)) (k : String) (v : α) :
    assocGet (assocSet l k v) k = some v := by
  induction l with
  | nil => simp [assocGet, assocSet]
  | cons p rest ih =>
      by_cases h : p.1 = k <;> simp [assocGet, assocSet, h, ih]

theorem assocGet_set_other {α : Type} (l : List (String × α)) (k k' : String)
    (v : α) (h : k ≠ k') : assocGet (assocSet l k v) k' = assocGet l k' := by
  induction l with
  | nil => simp [assocGet, assocSet, h]
  | cons p rest ih =>
      by_cases hp : p.1 = k
      · simp [assocGet, assocSet, hp, h]
      · by_cases hp' : p.1 = k' <;>
          simp [assocGet, assocSet, hp, hp', ih, h, Ne.symm h]

theorem assocGet_erase_self {α : Type} (l : List (String × α)) (k : String) :
    assocGet (assocErase l k) k = none := by
  induction l with
  | nil => simp [assocGet, assocErase]
  | cons p rest ih =>
      by_cases h : p.1 = k <;> simp [assocGet, assocErase, h, ih]

theorem assocGet_erase_other {α : Type} (l : List (String × α)) (k k' : String)
    (h : k ≠ k') : assocGet (assocErase l k) k' = assocGet l k' := by
  induction l with
  | nil => simp [assocGet, assocErase]
  | cons p rest ih =>
      by_cases hp : p.1 = k
      · have hp' : ¬ p.1 = k' := by rw [hp]; exact h
        simp [assocGet, assocErase, hp, hp', ih, h, Ne.symm h]
      · by_cases hp' : p.1 = k' <;>
          simp [assocGet, assocErase, hp, hp', ih, h, Ne.symm h]

theorem assocSet_set {α : Type} (l : List (String × α)) (k : String) (v v' : α) :
    assocSet (assocSet l k v) k v' = assocSet l k v' := by
  induction l with
  | nil => simp [assocSet]
  | cons p rest ih =>
      by_cases h : p.1 = k <;> simp [assocSet, h, ih]

/-! ### SiteRegistry (`Web`) lemmas -/

theorem webStep_cached (s : FetcherState) (site : String) (h : Nat)
    (hc : assocGet s.webs site = some h) : webStep s site = (s, h) := by
  unfold webStep
  rw [hc]

theorem runWebSteps_cached (n : Nat) :
    ∀ (s : FetcherState) (site : String) (h : Nat),
      assocGet s.webs site = some h →
      runWebSteps s site n = (s, List.replicate n h) := by
  induction n with
  | zero => intro s site h _; simp [runWebSteps]
  | succ n ih =>
      intro s site h hc
      simp [runWebSteps, webStep_cached s site h hc, ih s site h hc,
        List.replicate_succ]

/-- C7.  Requesting the resource handle for an uncached site key any positive
number of times constructs the handle exactly once (the handle counter is
bumped exactly once), memoizes the first construction, and returns that very
handle to every caller. -/
theorem spec_C7_web_handle_single_flight (s : FetcherState) (site : String)
    (n : Nat) (h : assocGet s.webs site = none) :
    runWebSteps s site (n + 1) =
      ({ s with webs := assocSet s.webs site s.nextWebId
              , nextWebId := s.nextWebId + 1 },
        List.replicate (n + 1) s.nextWebId) := by
  have hw : webStep s site =
      ({ s with webs := assocSet s.webs site s.nextWebId
              , nextWebId := s.nextWebId + 1 }, s.nextWebId) := by
    unfold webStep
    rw [h]
  have hc : assocGet
      ({ s with webs := assocSet s.webs site s.nextWebId
              , nextWebId := s.nextWebId + 1 } : FetcherState).webs site =
      some s.nextWebId := assocGet_set_self s.webs site s.nextWebId
  simp [runWebSteps, hw, runWebSteps_cached n _ site s.nextWebId hc,
    List.replicate_succ]

theorem spec_C7_witness :
    runWebSteps initialState "alpha" 3 =
      ({ initialState with webs := [("alpha", 0)], nextWebId := 1 },
        [0, 0, 0]) := by
  have h := spec_C7_web_handle_single_flight initialState "alpha" 2 rfl
  simpa [initialState, assocSet, List.replicate] using h

theorem assocSet_get_same {α : Type} (l : List (String × α)) (k : String) (v : α)
    (h : assocGet l k = some v) : assocSet l k v = l := by
  induction l with
  | nil => simp [assocGet] at h
  | cons p rest ih =>
      by_cases hp : p.1 = k
      · have h2 : p.2 = v := by simpa [assocGet, hp] using h
        have h3 : (k, v) = p := by
          cases p
          simp_all
        simp [assocSet, hp, h3]
      · simp [assocGet, hp] at h
        simp [assocSet, hp, ih h]

/-! ### ContentTypeCache lemmas -/

theorem ctRequest_fresh (s : FetcherState) (key : String) (w : Nat)
    (h : assocGet s.contentTypes key = none) :
    ctRequest s key w =
      { s with contentTypes := assocSet s.contentTypes key ⟨[w], none⟩
             , lookupsIssued := s.lookupsIssued ++ [key] } := by
  unfold ctRequest
  rw [h]

theorem ctRequest_pending (s : FetcherState) (key : String) (w : Nat)
    (cbs : List Nat) (h : assocGet s.contentTypes key = some ⟨cbs, none⟩) :
    ctRequest s key w =
      { s with contentTypes :=
          assocSet s.contentTypes key ⟨cbs ++ [w], none⟩ } := by
  unfold ctRequest
  rw [h]

theorem ctRequest_resolved (s : FetcherState) (key : String) (w : Nat)
    (cbs : List Nat) (ids : List String)
    (h : assocGet s.contentTypes key = some ⟨cbs, some ids⟩) :
    ctRequest s key w =
      { s with ctReceived := s.ctReceived ++ [(w, ids)] } := by
  unfold ctRequest
  rw [h]

theorem ctResolve_pending (s : FetcherState) (key : String) (cbs : List Nat)
    (ids : List String)
    (h : assocGet s.contentTypes key = some ⟨cbs, none⟩) :
    ctResolve s key ids =
      { s with
          contentTypes := assocSet s.contentTypes key ⟨[], some ids⟩,
          ctReceived := s.ctReceived ++ cbs.map (fun w => (w, ids)) } := by
  unfold ctResolve
  rw [h]

theorem foldl_ctRequest_pending (wids : List Nat) :
    ∀ (s : FetcherState) (key : String) (cbs : List Nat),
      assocGet s.contentTypes key = some ⟨cbs, none⟩ →
      wids.foldl (fun t w => ctRequest t key w) s =
        { s with contentTypes :=
            assocSet s.contentTypes key ⟨cbs ++ wids, none⟩ } := by
  induction wids with
  | nil =>
      intro s key cbs h
      simp only [List.foldl_nil, List.append_nil,
        assocSet_get_same s.contentTypes key ⟨cbs, none⟩ h]
  | cons w wids ih =>
      intro s key cbs h
      have h1 := ctRequest_pending s key w cbs h
      have h2 : assocGet
          ({ s with contentTypes :=
              assocSet s.contentTypes key ⟨cbs ++ [w], none⟩ } :
            FetcherState).contentTypes key = some ⟨cbs ++ [w], none⟩ :=
        assocGet_set_self s.contentTypes key ⟨cbs ++ [w], none⟩
      have h3 := ih _ key (cbs ++ [w]) h2
      calc (w :: wids).foldl (fun t w => ctRequest t key w) s
          = wids.foldl (fun t w => ctRequest t key w) (ctRequest s key w) := rfl
        _ = { s with contentTypes :=
                assocSet s.contentTypes key ⟨cbs ++ w :: wids, none⟩ } := by
              rw [h1, h3]
              simp [assocSet_set]

theorem foldl_ctRequest_resolved (wids : List Nat) :
    ∀ (s : FetcherState) (key : String) (cbs : List Nat) (ids : List String),
      assocGet s.contentTypes key = some ⟨cbs, some ids⟩ →
      wids.foldl (fun t w => ctRequest t key w) s =
        { s with ctReceived :=
            s.ctReceived ++ wids.map (fun w => (w, ids)) } := by
  induction wids with
  | nil => intro s key cbs ids h; simp
  | cons w wids ih =>
      intro s key cbs ids h
      have h1 := ctRequest_resolved s key w cbs ids h
      have h4 : assocGet
          ({ s with ctReceived := s.ctReceived ++ [(w, ids)] } :
            FetcherState).contentTypes key = some ⟨cbs, some ids⟩ := h
      have h3 := ih _ key cbs ids h4
      calc (w :: wids).foldl (fun t w => ctRequest t key w) s
          = wids.foldl (fun t w => ctRequest t key w) (ctRequest s key w) := rfl
        _ = { s with ctReceived :=
                s.ctReceived ++ (w :: wids).map (fun w => (w, ids)) } := by
              rw [h1, h3]
              simp

/-- C6.  Content-type resolution is single-flight and permanently cached:
with the entry for the key absent, a burst of callers issues exactly one
underlying lookup and invokes nobody yet; resolving the lookup hands every
registered caller the identical identifier list in arrival order and marks
the entry resolved; any later callers are served the same cached list
immediately with no further lookup ever issued. -/
theorem spec_C6_content_type_single_flight (s : FetcherState)
    (site list : Option String) (key : String) (hk : key = ctKey site list)
    (w0 : Nat) (wids later : List Nat) (ids : List String)
    (h : assocGet s.contentTypes key = none) :
    ((w0 :: wids).foldl (fun t w => ctRequest t key w) s).lookupsIssued =
        s.lookupsIssued ++ [key] ∧
      ((w0 :: wids).foldl (fun t w => ctRequest t key w) s).ctReceived =
        s.ctReceived ∧
      (ctResolve ((w0 :: wids).foldl (fun t w => ctRequest t key w) s) key
          ids).ctReceived =
        s.ctReceived ++ (w0 :: wids).map (fun w => (w, ids)) ∧
      assocGet (ctResolve ((w0 :: wids).foldl (fun t w => ctRequest t key w) s)
          key ids).contentTypes key = some ⟨[], some ids⟩ ∧
      (later.foldl (fun t w => ctRequest t key w)
          (ctResolve ((w0 :: wids).foldl (fun t w => ctRequest t key w) s) key
            ids)).lookupsIssued = s.lookupsIssued ++ [key] ∧
      (later.foldl (fun t w => ctRequest t key w)
          (ctResolve ((w0 :: wids).foldl (fun t w => ctRequest t key w) s) key
            ids)).ctReceived =
        s.ctReceived ++ (w0 :: wids).map (fun w => (w, ids)) ++
          later.map (fun w => (w, ids)) := by
  have h0 := ctRequest_fresh s key w0 h
  have h1 : assocGet
      ({ s with
          contentTypes := assocSet s.contentTypes key ⟨[w0], none⟩,
          lookupsIssued := s.lookupsIssued ++ [key] } :
        FetcherState).contentTypes key = some ⟨[w0], none⟩ :=
    assocGet_set_self s.contentTypes key ⟨[w0], none⟩
  have hburst : (w0 :: wids).foldl (fun t w => ctRequest t key w) s =
      { s with
          contentTypes := assocSet s.contentTypes key ⟨w0 :: wids, none⟩,
          lookupsIssued := s.lookupsIssued ++ [key] } := by
    have h3 := foldl_ctRequest_pending wids
      { s with
          contentTypes := assocSet s.contentTypes key ⟨[w0], none⟩,
          lookupsIssued := s.lookupsIssued ++ [key] } key [w0] h1
    calc (w0 :: wids).foldl (fun t w => ctRequest t key w) s
        = wids.foldl (fun t w => ctRequest t key w) (ctRequest s key w0) := rfl
      _ = _ := by
            rw [h0, h3]
            simp [assocSet_set]
  have hg : assocGet
      ({ s with
          contentTypes := assocSet s.contentTypes key ⟨w0 :: wids, none⟩,
          lookupsIssued := s.lookupsIssued ++ [key] } :
        FetcherState).contentTypes key = some ⟨w0 :: wids, none⟩ :=
    assocGet_set_self s.contentTypes key ⟨w0 :: wids, none⟩
  have hres : ctResolve ((w0 :: wids).foldl (fun t w => ctRequest t key w) s)
      key ids =
      { s with
          contentTypes := assocSet s.contentTypes key ⟨[], some ids⟩,
          lookupsIssued := s.lookupsIssued ++ [key],
          ctReceived :=
            s.ctReceived ++ (w0 :: wids).map (fun w => (w, ids)) } := by
    rw [hburst, ctResolve_pending _ key (w0 :: wids) ids hg]
    simp [assocSet_set]
  have h2 : assocGet
      ({ s with
          contentTypes := assocSet s.contentTypes key ⟨[], some ids⟩,
          lookupsIssued := s.lookupsIssued ++ [key],
          ctReceived :=
            s.ctReceived ++ (w0 :: wids).map (fun w => (w, ids)) } :
        FetcherState).contentTypes key = some ⟨[], some ids⟩ :=
    assocGet_set_self s.contentTypes key ⟨[], some ids⟩
  have hlater := foldl_ctRequest_resolved later
    { s with
        contentTypes := assocSet s.contentTypes key ⟨[], some ids⟩,
        lookupsIssued := s.lookupsIssued ++ [key],
        ctReceived :=
          s.ctReceived ++ (w0 :: wids).map (fun w => (w, ids)) } key [] ids h2
  refine ⟨by rw [hburst], by rw [hburst], by rw [hres], ?_, ?_, ?_⟩
  · rw [hres]
    exact h2
  · rw [hres, hlater]
  · rw [hres, hlater]

theorem spec_C6_witness :
    ((11 :: [12, 13]).foldl
        (fun t w => ctRequest t (ctKey (some "S") none) w)
        initialState).lookupsIssued = ["[S]-[list]"] ∧
      (ctResolve
          ((11 :: [12, 13]).foldl
            (fun t w => ctRequest t (ctKey (some "S") none) w) initialState)
          (ctKey (some "S") none) ["0x01", "0x0120"]).ctReceived =
        [(11, ["0x01", "0x0120"]), (12, ["0x01", "0x0120"]),
          (13, ["0x01", "0x0120"])] := by
  have h := spec_C6_content_type_single_flight initialState (some "S") none
    (ctKey (some "S") none) rfl 11 [12, 13] [] ["0x01", "0x0120"] rfl
  refine ⟨?_, ?_⟩
  · rw [h.1]
    rfl
  · rw [h.2.2.1]
    rfl

/-! ### BatchMultiplexer lemmas -/

theorem assocErase_set {α : Type} (l : List (String × α)) (k : String) (v : α) :
    assocErase (assocSet l k v) k = assocErase l k := by
  induction l with
  | nil => simp [assocSet, assocErase]
  | cons p rest ih =>
      by_cases hp : p.1 = k <;> simp [assocSet, assocErase, hp, ih]

theorem assocErase_get_none {α : Type} (l : List (String × α)) (k : String)
    (h : assocGet l k = none) : assocErase l k = l := by
  induction l with
  | nil => simp [assocErase]
  | cons p rest ih =>
      by_cases hp : p.1 = k
      · simp [assocGet, hp] at h
      · simp [assocGet, hp] at h
        simp [assocErase, hp, ih h]

theorem invokeStep_fresh (s : FetcherState) (key : String) (op : Nat)
    (h : assocGet s.batches key = none) :
    invokeStep s key op =
      ({ s with
          batches := assocSet s.batches key ⟨s.nextBatchId, 1⟩,
          nextBatchId := s.nextBatchId + 1,
          timers := s.timers ++ [(key, s.nextBatchId)],
          assignments := s.assignments ++ [(op, s.nextBatchId)] },
        s.nextBatchId) := by
  simp [invokeStep, h]

theorem invokeStep_active (s : FetcherState) (key : String) (op : Nat)
    (b c : Nat) (h : assocGet s.batches key = some ⟨b, c⟩) (hc : c < 50) :
    invokeStep s key op =
      ({ s with
          batches := assocSet s.batches key ⟨b, c + 1⟩,
          assignments := s.assignments ++ [(op, b)] }, b) := by
  have hc2 : ¬ 50 ≤ c := by omega
  simp [invokeStep, h, hc2]

theorem invokeStep_retire (s : FetcherState) (key : String) (op : Nat)
    (b c : Nat) (h : assocGet s.batches key = some ⟨b, c⟩) (hc : 50 ≤ c) :
    invokeStep s key op =
      ({ s with
          batches := assocSet (assocErase s.batches key) key ⟨s.nextBatchId, 1⟩,
          nextBatchId := s.nextBatchId + 1,
          timers := s.timers ++ [(key, s.nextBatchId)],
          assignments := s.assignments ++ [(op, s.nextBatchId)] },
        s.nextBatchId) := by
  simp [invokeStep, h, hc, assocGet_erase_self]

theorem runInvokes_active (ops : List Nat) :
    ∀ (s : FetcherState) (key : String) (b c : Nat),
      assocGet s.batches key = some ⟨b, c⟩ → c + ops.length ≤ 50 →
      runInvokes s key ops =
        ({ s with
            batches := assocSet s.batches key ⟨b, c + ops.length⟩,
            assignments := s.assignments ++ ops.map (fun op => (op, b)) },
          List.replicate ops.length b) := by
  induction ops with
  | nil =>
      intro s key b c h hle
      simp only [runInvokes, List.length_nil, Nat.add_zero, List.map_nil,
        List.append_nil, List.replicate,
        assocSet_get_same s.batches key ⟨b, c⟩ h]
  | cons op ops ih =>
      intro s key b c h hle
      have hc : c < 50 := by simp at hle; omega
      have h1 := invokeStep_active s key op b c h hc
      have h2 : assocGet
          ({ s with
              batches := assocSet s.batches key ⟨b, c + 1⟩,
              assignments := s.assignments ++ [(op, b)] } :
            FetcherState).batches key = some ⟨b, c + 1⟩ :=
        assocGet_set_self s.batches key ⟨b, c + 1⟩
      have hle2 : c + 1 + ops.length ≤ 50 := by simp at hle; omega
      have h3 := ih _ key b (c + 1) h2 hle2
      have harith : c + 1 + ops.length = c + (op :: ops).length := by
        simp; omega
      simp only [runInvokes, h1, h3, assocSet_set, List.replicate_succ]
      rw [harith]
      simp [List.replicate_succ]

theorem runInvokes_append (l1 l2 : List Nat) :
    ∀ (s : FetcherState) (key : String),
      runInvokes s key (l1 ++ l2) =
        ((runInvokes (runInvokes s key l1).1 key l2).1,
          (runInvokes s key l1).2 ++ (runInvokes (runInvokes s key l1).1 key l2).2) := by
  induction l1 with
  | nil => intro s key; simp [runInvokes]
  | cons op l1 ih => intro s key; simp [runInvokes, ih]

/-- C2.  Auto-batch coalescing.  With no open window for the key of the given
timeout and site, a burst of K factory invocations with 1 ≤ K ≤ 50 hands all
K callers the same fresh batch handle, schedules exactly one window timer for
it, logs all K operations against that one handle, and firing that timer
commits the batch exactly once.  A burst of exactly 51 invocations (ops1 of
length 50 followed by one more) hands the first 50 callers one handle and the
51st caller a second, distinct handle in a fresh window; two timers are
scheduled and firing them commits exactly the two batches. -/
theorem spec_C2_autobatch_window_coalescing (s : FetcherState)
    (timeout : Nat) (site : String) (ops : List Nat) (key : String)
    (hkey : key = mkBatchKey timeout site)
    (h : assocGet s.batches key = none) :
    (1 ≤ ops.length → ops.length ≤ 50 →
      runInvokes s key ops =
        ({ s with
            batches := assocSet s.batches key ⟨s.nextBatchId, ops.length⟩,
            nextBatchId := s.nextBatchId + 1,
            timers := s.timers ++ [(key, s.nextBatchId)],
            assignments :=
              s.assignments ++ ops.map (fun op => (op, s.nextBatchId)) },
          List.replicate ops.length s.nextBatchId) ∧
      ([(key, s.nextBatchId)].foldl fireTimer (runInvokes s key ops).1).executed =
        s.executed ++ [s.nextBatchId]) ∧
    (∀ (ops1 : List Nat) (op51 : Nat), ops = ops1 ++ [op51] →
      ops1.length = 50 →
      runInvokes s key ops =
        ({ s with
            batches := assocSet s.batches key ⟨s.nextBatchId + 1, 1⟩,
            nextBatchId := s.nextBatchId + 2,
            timers := s.timers ++
              [(key, s.nextBatchId), (key, s.nextBatchId + 1)],
            assignments :=
              s.assignments ++ ops1.map (fun op => (op, s.nextBatchId)) ++
                [(op51, s.nextBatchId + 1)] },
          List.replicate 50 s.nextBatchId ++ [s.nextBatchId + 1]) ∧
      ([(key, s.nextBatchId), (key, s.nextBatchId + 1)].foldl fireTimer
          (runInvokes s key ops).1).executed =
        s.executed ++ [s.nextBatchId, s.nextBatchId + 1] ∧
      s.nextBatchId ≠ s.nextBatchId + 1) := by
  constructor
  · intro h1 h50
    cases ops with
    | nil => simp at h1
    | cons op ops' =>
        have hf := invokeStep_fresh s key op h
        have h2 : assocGet
            ({ s with
                batches := assocSet s.batches key ⟨s.nextBatchId, 1⟩,
                nextBatchId := s.nextBatchId + 1,
                timers := s.timers ++ [(key, s.nextBatchId)],
                assignments := s.assignments ++ [(op, s.nextBatchId)] } :
              FetcherState).batches key = some ⟨s.nextBatchId, 1⟩ :=
          assocGet_set_self s.batches key ⟨s.nextBatchId, 1⟩
        have hle : 1 + ops'.length ≤ 50 := by simp at h50; omega
        have h3 := runInvokes_active ops' _ key s.nextBatchId 1 h2 hle
        have hrun : runInvokes s key (op :: ops') =
            ({ s with
                batches := assocSet s.batches key
                  ⟨s.nextBatchId, (op :: ops').length⟩,
                nextBatchId := s.nextBatchId + 1,
                timers := s.timers ++ [(key, s.nextBatchId)],
                assignments := s.assignments ++
                  (op :: ops').map (fun o => (o, s.nextBatchId)) },
              List.replicate (op :: ops').length s.nextBatchId) := by
          simp only [runInvokes, hf, h3, assocSet_set, List.replicate_succ]
          have harith : 1 + ops'.length = (op :: ops').length := by simp; omega
          rw [harith]
          simp [List.replicate_succ]
        refine ⟨hrun, ?_⟩
        rw [hrun]
        simp [fireTimer]
  · intro ops1 op51 hops hlen
    cases ops1 with
    | nil => simp at hlen
    | cons op ops' =>
        subst hops
        have hf := invokeStep_fresh s key op h
        have h2 : assocGet
            ({ s with
                batches := assocSet s.batches key ⟨s.nextBatchId, 1⟩,
                nextBatchId := s.nextBatchId + 1,
                timers := s.timers ++ [(key, s.nextBatchId)],
                assignments := s.assignments ++ [(op, s.nextBatchId)] } :
              FetcherState).batches key = some ⟨s.nextBatchId, 1⟩ :=
          assocGet_set_self s.batches key ⟨s.nextBatchId, 1⟩
        have hlen' : ops'.length = 49 := by simp at hlen; omega
        have hle : 1 + ops'.length ≤ 50 := by omega
        have h3 := runInvokes_active ops' _ key s.nextBatchId 1 h2 hle
        have hrun1 : runInvokes s key (op :: ops') =
            ({ s with
                batches := assocSet s.batches key ⟨s.nextBatchId, 50⟩,
                nextBatchId := s.nextBatchId + 1,
                timers := s.timers ++ [(key, s.nextBatchId)],
                assignments := s.assignments ++
                  (op :: ops').map (fun o => (o, s.nextBatchId)) },
              List.replicate 50 s.nextBatchId) := by
          simp only [runInvokes, hf, h3, assocSet_set]
          have harith : 1 + ops'.length = 50 := by omega
          rw [harith]
          have hrep : List.replicate 50 s.nextBatchId =
              s.nextBatchId :: List.replicate 49 s.nextBatchId := by
            rw [← List.replicate_succ]
          rw [hrep, hlen']
          simp
        have h4 : assocGet
            ({ s with
                batches := assocSet s.batches key ⟨s.nextBatchId, 50⟩,
                nextBatchId := s.nextBatchId + 1,
                timers := s.timers ++ [(key, s.nextBatchId)],
                assignments := s.assignments ++
                  (op :: ops').map (fun o => (o, s.nextBatchId)) } :
              FetcherState).batches key = some ⟨s.nextBatchId, 50⟩ :=
          assocGet_set_self s.batches key ⟨s.nextBatchId, 50⟩
        have h5 := invokeStep_retire _ key op51 s.nextBatchId 50 h4 (by omega)
        have hrun : runInvokes s key ((op :: ops') ++ [op51]) =
            ({ s with
                batches := assocSet s.batches key ⟨s.nextBatchId + 1, 1⟩,
                nextBatchId := s.nextBatchId + 2,
                timers := s.timers ++
                  [(key, s.nextBatchId), (key, s.nextBatchId + 1)],
                assignments :=
                  s.assignments ++
                    (op :: ops').map (fun o => (o, s.nextBatchId)) ++
                    [(op51, s.nextBatchId + 1)] },
              List.replicate 50 s.nextBatchId ++ [s.nextBatchId + 1]) := by
          rw [runInvokes_append, hrun1]
          simp only [runInvokes, h5]
          simp [assocErase_set, assocErase_get_none s.batches key h]
        refine ⟨hrun, ?_, by omega⟩
        rw [hrun]
        simp [fireTimer]

theorem spec_C2_witness :
    runInvokes initialState (mkBatchKey 20 "default") [1, 2] =
      ({ initialState with
          batches := [(mkBatchKey 20 "default", ⟨0, 2⟩)],
          nextBatchId := 1,
          timers := [(mkBatchKey 20 "default", 0)],
          assignments := [(1, 0), (2, 0)] },
        [0, 0]) ∧
    ([(mkBatchKey 20 "default", 0)].foldl fireTimer
        (runInvokes initialState (mkBatchKey 20 "default") [1, 2]).1).executed =
      [0] := by
  have h := (spec_C2_autobatch_window_coalescing initialState 20 "default"
    [1, 2] (mkBatchKey 20 "default") rfl rfl).1 (by simp) (by simp)
  refine ⟨?_, ?_⟩
  · rw [h.1]
    simp [initialState, assocSet, List.replicate]
  · simpa [initialState] using h.2

/-- Events driving the auto-batch table: one factory invocation for the key
of some timeout and site, or the firing of one scheduled window timer. -/
inductive BEvent where
  | invoke (timeout : Nat) (site : String) (op : Nat)
  | fire (key : String) (b : Nat)

/-- One step of the batch subsystem under an event. -/
def bStep (s : FetcherState) : BEvent → FetcherState
  | .invoke timeout site op => (invokeStep s (mkBatchKey timeout site) op).1
  | .fire key b => fireTimer s (key, b)

/-- Invariant: every active batch slot holds at most 50 pending operations. -/
def slotCapOK (s : FetcherState) : Prop :=
  ∀ key slot, assocGet s.batches key = some slot → slot.count ≤ 50

theorem slotCapOK_invoke (s : FetcherState) (key : String) (op : Nat)
    (hs : slotCapOK s) : slotCapOK (invokeStep s key op).1 := by
  intro k' slot' hget
  rcases hsl : assocGet s.batches key with - | ⟨b, c⟩
  · rw [invokeStep_fresh s key op hsl] at hget
    by_cases hk : key = k'
    · subst hk
      rw [assocGet_set_self] at hget
      cases hget
      simp
    · rw [show assocGet
          (assocSet s.batches key ⟨s.nextBatchId, 1⟩) k' =
          assocGet s.batches k' from assocGet_set_other _ _ _ _ hk] at hget
      exact hs k' slot' hget
  · by_cases hc : 50 ≤ c
    · rw [invokeStep_retire s key op b c hsl hc] at hget
      by_cases hk : key = k'
      · subst hk
        rw [assocGet_set_self] at hget
        cases hget
        simp
      · rw [show assocGet
            (assocSet (assocErase s.batches key) key ⟨s.nextBatchId, 1⟩) k' =
            assocGet (assocErase s.batches key) k' from
            assocGet_set_other _ _ _ _ hk,
          assocGet_erase_other _ _ _ hk] at hget
        exact hs k' slot' hget
    · have hc' : c < 50 := by omega
      rw [invokeStep_active s key op b c hsl hc'] at hget
      by_cases hk : key = k'
      · subst hk
        rw [assocGet_set_self] at hget
        cases hget
        have := hs key ⟨b, c⟩ hsl
        simp at this ⊢
        omega
      · rw [show assocGet (assocSet s.batches key ⟨b, c + 1⟩) k' =
            assocGet s.batches k' from assocGet_set_other _ _ _ _ hk] at hget
        exact hs k' slot' hget

theorem slotCapOK_step (s : FetcherState) (e : BEvent) (hs : slotCapOK s) :
    slotCapOK (bStep s e) := by
  cases e with
  | invoke timeout site op => exact slotCapOK_invoke s (mkBatchKey timeout site) op hs
  | fire key b =>
      intro k' slot' hget
      by_cases hk : key = k'
      · subst hk
        simp [bStep, fireTimer, assocGet_erase_self] at hget
      · simp only [bStep, fireTimer] at hget
        rw [assocGet_erase_other _ _ _ hk] at hget
        exact hs k' slot' hget

/-- C8.  The slot cap invariant: along any sequence of factory invocations
and timer firings, every active slot keeps its pending count at most 50; and
an invocation that finds the count at 50 retires the slot at once, without
any timer having fired, handing the caller a fresh batch whose slot restarts
at count 1. -/
theorem spec_C8_pending_count_cap (events : List BEvent) (s : FetcherState)
    (hs : slotCapOK s) :
    slotCapOK (events.foldl bStep s) ∧
    (∀ (key : String) (op b c : Nat),
      assocGet s.batches key = some ⟨b, c⟩ → 50 ≤ c →
      (invokeStep s key op).2 = s.nextBatchId ∧
      assocGet (invokeStep s key op).1.batches key =
        some ⟨s.nextBatchId, 1⟩ ∧
      (invokeStep s key op).1.nextBatchId = s.nextBatchId + 1) := by
  constructor
  · induction events generalizing s with
    | nil => exact hs
    | cons e events ih => exact ih (bStep s e) (slotCapOK_step s e hs)
  · intro key op b c hget hc
    rw [invokeStep_retire s key op b c hget hc]
    refine ⟨rfl, ?_, rfl⟩
    exact assocGet_set_self _ _ _

theorem spec_C8_witness :
    slotCapOK ([BEvent.invoke 20 "default" 1, BEvent.fire "x" 0].foldl bStep
      initialState) := by
  have h := spec_C8_pending_count_cap
    [BEvent.invoke 20 "default" 1, BEvent.fire "x" 0] initialState
    (by intro key slot hget; simp [initialState, assocGet] at hget)
  exact h.1

/-! ### TaxonomyPathBuilder lemmas -/

theorem getTaxonomyClosestParent_eq (terms : List ITerm) (p : String) :
    getTaxonomyClosestParent terms p =
      closestFold (splitSemi p) terms (-1, none) := rfl

theorem foldl_range_last_match (p : Nat → Prop) [DecidablePred p] :
    ∀ n : Nat,
      (((List.range n).foldl (fun s i => if p i then (i : Int) else s) (-1) =
          -1) ∧
        ∀ i : Nat, i < n → ¬ p i) ∨
      (∃ i : Nat, i < n ∧ p i ∧
        ((List.range n).foldl (fun s i => if p i then (i : Int) else s) (-1) =
          (i : Int)) ∧
        ∀ j : Nat, j < n → p j → j ≤ i) := by
  intro n
  induction n with
  | zero => exact Or.inl ⟨rfl, fun i hi => absurd hi (by omega)⟩
  | succ n ih =>
      rw [List.range_succ, List.foldl_append, List.foldl_cons, List.foldl_nil]
      by_cases hp : p n
      · right
        refine ⟨n, Nat.lt_succ_self n, hp, by simp [hp], ?_⟩
        intro j hj _
        omega
      · rcases ih with ⟨hres, hnone⟩ | ⟨i, hi, hpi, hres, hmax⟩
        · left
          refine ⟨by simp [hp, hres], ?_⟩
          intro i hi
          by_cases hin : i = n
          · subst hin; exact hp
          · exact hnone i (by omega)
        · right
          refine ⟨i, by omega, hpi, by simp [hp, hres], ?_⟩
          intro j hj hpj
          by_cases hjn : j = n
          · subst hjn; exact absurd hpj hp
          · exact hmax j (by omega) hpj

theorem termScore_spec (split : List String) (term : ITerm) :
    (termScore split term = -1 ∧
      ∀ i : Nat, i < split.length → joinTake split i ≠ term.PathOfTerm) ∨
    (∃ i : Nat, i < split.length ∧ joinTake split i = term.PathOfTerm ∧
      termScore split term = (i : Int) ∧
      ∀ j : Nat, j < split.length → joinTake split j = term.PathOfTerm →
        j ≤ i) :=
  foldl_range_last_match
    (fun i => joinTake split i = term.PathOfTerm) split.length

theorem closestFold_spec (split : List String) :
    ∀ (terms : List ITerm) (hs : Int) (ht : Option ITerm),
      hs ≤ (closestFold split terms (hs, ht)).1 ∧
      (∀ t ∈ terms, termScore split t ≤ (closestFold split terms (hs, ht)).1) ∧
      ((closestFold split terms (hs, ht) = (hs, ht) ∧
          ∀ t ∈ terms, termScore split t ≤ hs) ∨
        ∃ pre t post, terms = pre ++ t :: post ∧
          (closestFold split terms (hs, ht)).2 = some t ∧
          termScore split t = (closestFold split terms (hs, ht)).1 ∧
          hs < termScore split t ∧
          ∀ u ∈ pre, termScore split u < termScore split t) := by
  intro terms
  induction terms with
  | nil =>
      intro hs ht
      exact ⟨le_refl hs, by simp, Or.inl ⟨rfl, by simp⟩⟩
  | cons t0 rest ih =>
      intro hs ht
      by_cases h0 : hs < termScore split t0
      · have hstep : closestFold split (t0 :: rest) (hs, ht) =
            closestFold split rest (termScore split t0, some t0) := by
          simp [closestFold, h0]
        obtain ⟨ih1, ih2, ih3⟩ := ih (termScore split t0) (some t0)
        rw [hstep]
        refine ⟨le_trans (le_of_lt h0) ih1, ?_, ?_⟩
        · intro t ht'
          rcases List.mem_cons.mp ht' with rfl | hmem
          · exact ih1
          · exact ih2 t hmem
        · rcases ih3 with ⟨heq, hall⟩ | ⟨pre, t, post, hsplit, hsome, hscore, hlt, hpre⟩
          · right
            refine ⟨[], t0, rest, rfl, ?_, ?_, h0, by simp⟩
            · rw [heq]
            · rw [heq]
          · right
            refine ⟨t0 :: pre, t, post, by rw [hsplit]; rfl, hsome, hscore,
              lt_trans h0 hlt, ?_⟩
            intro u hu
            rcases List.mem_cons.mp hu with rfl | hu'
            · exact hlt
            · exact hpre u hu'
      · have hstep : closestFold split (t0 :: rest) (hs, ht) =
            closestFold split rest (hs, ht) := by
          simp [closestFold, h0]
        obtain ⟨ih1, ih2, ih3⟩ := ih hs ht
        rw [hstep]
        refine ⟨ih1, ?_, ?_⟩
        · intro t ht'
          rcases List.mem_cons.mp ht' with rfl | hmem
          · exact le_trans (not_lt.mp h0) ih1
          · exact ih2 t hmem
        · rcases ih3 with ⟨heq, hall⟩ | ⟨pre, t, post, hsplit, hsome, hscore, hlt, hpre⟩
          · left
            refine ⟨heq, ?_⟩
            intro t ht'
            rcases List.mem_cons.mp ht' with rfl | hmem
            · exact not_lt.mp h0
            · exact hall t hmem
          · right
            refine ⟨t0 :: pre, t, post, by rw [hsplit]; rfl, hsome, hscore,
              hlt, ?_⟩
            intro u hu
            rcases List.mem_cons.mp hu with rfl | hu'
            · exact lt_of_le_of_lt (not_lt.mp h0) hlt
            · exact hpre u hu'

/-- C5.  The closest-parent resolver: every term is scored with the highest
index whose prefix join of the requested path equals the term's stored path,
or -1 when no prefix matches; the fold selects a term of maximal score,
keeping the first-encountered term on ties (everything strictly before the
selected term scores strictly lower); and when nothing scores above -1 the
result is score -1 with no matched term. -/
theorem spec_C5_closest_parent_resolution (terms : List ITerm)
    (new_path : String) :
    (∀ term : ITerm,
      (termScore (splitSemi new_path) term = -1 ∧
        ∀ i : Nat, i < (splitSemi new_path).length →
          joinTake (splitSemi new_path) i ≠ term.PathOfTerm) ∨
      (∃ i : Nat, i < (splitSemi new_path).length ∧
        joinTake (splitSemi new_path) i = term.PathOfTerm ∧
        termScore (splitSemi new_path) term = (i : Int) ∧
        ∀ j : Nat, j < (splitSemi new_path).length →
          joinTake (splitSemi new_path) j = term.PathOfTerm → j ≤ i)) ∧
    (-1 ≤ (getTaxonomyClosestParent terms new_path).1) ∧
    (∀ t ∈ terms, termScore (splitSemi new_path) t ≤
      (getTaxonomyClosestParent terms new_path).1) ∧
    ((getTaxonomyClosestParent terms new_path).2 = none →
      (getTaxonomyClosestParent terms new_path).1 = -1) ∧
    (∀ t : ITerm, (getTaxonomyClosestParent terms new_path).2 = some t →
      termScore (splitSemi new_path) t =
          (getTaxonomyClosestParent terms new_path).1 ∧
        -1 < (getTaxonomyClosestParent terms new_path).1 ∧
        ∃ pre post, terms = pre ++ t :: post ∧
          ∀ u ∈ pre, termScore (splitSemi new_path) u <
            (getTaxonomyClosestParent terms new_path).1) ∧
    (-1 < (getTaxonomyClosestParent terms new_path).1 →
      ∃ t, (getTaxonomyClosestParent terms new_path).2 = some t) := by
  obtain ⟨h1, h2, h3⟩ := closestFold_spec (splitSemi new_path) terms (-1) none
  rw [getTaxonomyClosestParent_eq]
  refine ⟨fun term => termScore_spec (splitSemi new_path) term, h1, h2, ?_, ?_, ?_⟩
  · intro hnone
    rcases h3 with ⟨heq, -⟩ | ⟨pre, t, post, -, hsome, -, -, -⟩
    · rw [heq]
    · rw [hnone] at hsome
      cases hsome
  · intro t hsome
    rcases h3 with ⟨heq, -⟩ | ⟨pre, t', post, hsplit, hsome', hscore, hlt, hpre⟩
    · rw [heq] at hsome
      cases hsome
    · rw [hsome'] at hsome
      cases hsome
      refine ⟨hscore, lt_of_lt_of_le hlt (le_of_eq hscore), pre, post,
        hsplit, ?_⟩
      intro u hu
      exact lt_of_lt_of_le (hpre u hu) (le_of_eq hscore)
  · intro hpos
    rcases h3 with ⟨heq, -⟩ | ⟨pre, t, post, -, hsome, -, -, -⟩
    · rw [heq] at hpos
      exact absurd hpos (by simp)
    · exact ⟨t, hsome⟩

theorem spec_C5_witness :
    termScore (splitSemi "A;B;C") ⟨"idB", "B", false, "A;B"⟩ ≤
      (getTaxonomyClosestParent
        [⟨"idA", "A", false, "A"⟩, ⟨"idB", "B", false, "A;B"⟩] "A;B;C").1 :=
  (spec_C5_closest_parent_resolution
    [⟨"idA", "A", false, "A"⟩, ⟨"idB", "B", false, "A;B"⟩] "A;B;C").2.2.1
    ⟨"idB", "B", false, "A;B"⟩ (by simp)

theorem closest_ge_neg_one (store : List ITerm) (p : String) :
    -1 ≤ (getTaxonomyClosestParent store p).1 := by
  rw [getTaxonomyClosestParent_eq]
  exact (closestFold_spec (splitSemi p) store (-1) none).1

theorem closest_mono (p : String) (store store' : List ITerm)
    (hsub : ∀ t ∈ store, t ∈ store') :
    (getTaxonomyClosestParent store p).1 ≤
      (getTaxonomyClosestParent store' p).1 := by
  obtain ⟨h1, h2, h3⟩ := closestFold_spec (splitSemi p) store (-1) none
  obtain ⟨h1', h2', h3'⟩ := closestFold_spec (splitSemi p) store' (-1) none
  rw [getTaxonomyClosestParent_eq, getTaxonomyClosestParent_eq]
  rcases h3 with ⟨heq, -⟩ | ⟨pre, t, post, hsplit, -, hscore, -, -⟩
  · rw [heq]
    exact h1'
  · have ht : t ∈ store := by
      rw [hsplit]
      exact List.mem_append_right _ (List.mem_cons_self _ _)
    rw [← hscore]
    exact h2' t (hsub t ht)

theorem buildParentReq_newName (a b n : String) (o : Option ITerm) :
    (buildParentReq a b n o).newName = n := by
  cases o <;> rfl

theorem build_step_done (env : List ITerm → CreateReq → List ITerm)
    (fuel : Nat) (store : List ITerm) (sspid termset_id new_path prev : String)
    (h : (splitSemi new_path)[((getTaxonomyClosestParent store
      new_path).1 + 1).toNat]? = none) :
    buildTaxonomyPath env (fuel + 1) store sspid termset_id new_path prev =
      (some (.ok true), []) := by
  simp [buildTaxonomyPath, h]

theorem build_step_guard (env : List ITerm → CreateReq → List ITerm)
    (fuel : Nat) (store : List ITerm) (sspid termset_id new_path prev n : String)
    (h : (splitSemi new_path)[((getTaxonomyClosestParent store
      new_path).1 + 1).toNat]? = some n)
    (he : n = prev) :
    buildTaxonomyPath env (fuel + 1) store sspid termset_id new_path prev =
      (some (.error (buildFailMsg n termset_id sspid)), []) := by
  subst he
  simp [buildTaxonomyPath, h]

theorem build_step_empty (env : List ITerm → CreateReq → List ITerm)
    (fuel : Nat) (store : List ITerm) (sspid termset_id new_path prev : String)
    (h : (splitSemi new_path)[((getTaxonomyClosestParent store
      new_path).1 + 1).toNat]? = some "")
    (hne : ¬ ("" = prev)) :
    buildTaxonomyPath env (fuel + 1) store sspid termset_id new_path prev =
      (some (.ok true), []) := by
  simp [buildTaxonomyPath, h, hne]

theorem build_step_rec (env : List ITerm → CreateReq → List ITerm)
    (fuel : Nat) (store : List ITerm) (sspid termset_id new_path prev n : String)
    (h : (splitSemi new_path)[((getTaxonomyClosestParent store
      new_path).1 + 1).toNat]? = some n)
    (hne : n ≠ prev) (hns : n ≠ "") :
    buildTaxonomyPath env (fuel + 1) store sspid termset_id new_path prev =
      ((buildTaxonomyPath env fuel
          (env store (buildParentReq sspid termset_id n
            (getTaxonomyClosestParent store new_path).2))
          sspid termset_id new_path n).1,
        buildParentReq sspid termset_id n
            (getTaxonomyClosestParent store new_path).2 ::
          (buildTaxonomyPath env fuel
            (env store (buildParentReq sspid termset_id n
              (getTaxonomyClosestParent store new_path).2))
            sspid termset_id new_path n).2) := by
  simp [buildTaxonomyPath, h, hne, hns]

theorem build_no_fuel_exhaustion (env : List ITerm → CreateReq → List ITerm)
    (hmono : ∀ (st : List ITerm) (req : CreateReq) (t : ITerm),
      t ∈ st → t ∈ env st req)
    (sspid termset_id new_path : String) :
    ∀ (fuel : Nat) (store : List ITerm) (prev : String),
      (splitSemi new_path).length -
          ((getTaxonomyClosestParent store new_path).1 + 1).toNat + 1 ≤ fuel →
      (buildTaxonomyPath env fuel store sspid termset_id new_path prev).1 ≠
        none := by
  intro fuel
  induction fuel with
  | zero => intro store prev hle; exact absurd hle (by omega)
  | succ f ih =>
      intro store prev hle
      cases hget : (splitSemi new_path)[((getTaxonomyClosestParent store
          new_path).1 + 1).toNat]? with
      | none =>
          rw [build_step_done env f store sspid termset_id new_path prev hget]
          simp
      | some n =>
          have hidx : ((getTaxonomyClosestParent store new_path).1 + 1).toNat <
              (splitSemi new_path).length := by
            by_contra hx
            push_neg at hx
            rw [List.getElem?_eq_none hx] at hget
            cases hget
          by_cases hprev : n = prev
          · rw [build_step_guard env f store sspid termset_id new_path prev n
              hget hprev]
            simp
          · by_cases hempty : n = ""
            · subst hempty
              rw [build_step_empty env f store sspid termset_id new_path prev
                hget hprev]
              simp
            · rw [build_step_rec env f store sspid termset_id new_path prev n
                hget hprev hempty]
              have hsub : ∀ t ∈ store,
                  t ∈ env store (buildParentReq sspid termset_id n
                    (getTaxonomyClosestParent store new_path).2) :=
                fun t htm => hmono store _ t htm
              have hmle := closest_mono new_path store _ hsub
              have hge := closest_ge_neg_one store new_path
              by_cases hsame :
                  (getTaxonomyClosestParent
                    (env store (buildParentReq sspid termset_id n
                      (getTaxonomyClosestParent store new_path).2))
                    new_path).1 =
                  (getTaxonomyClosestParent store new_path).1
              · have hf : 1 ≤ f := by omega
                obtain ⟨g, rfl⟩ : ∃ g, f = g + 1 := ⟨f - 1, by omega⟩
                have hget' : (splitSemi new_path)[((getTaxonomyClosestParent
                    (env store (buildParentReq sspid termset_id n
                      (getTaxonomyClosestParent store new_path).2))
                    new_path).1 + 1).toNat]? = some n := by
                  rw [hsame]
                  exact hget
                rw [build_step_guard env g _ sspid termset_id new_path n n
                  hget' rfl]
                simp
              · have hlt : (getTaxonomyClosestParent store new_path).1 <
                    (getTaxonomyClosestParent
                      (env store (buildParentReq sspid termset_id n
                        (getTaxonomyClosestParent store new_path).2))
                      new_path).1 :=
                  lt_of_le_of_ne hmle (fun hh => hsame hh.symm)
                apply ih
                omega

theorem build_writes_chain (env : List ITerm → CreateReq → List ITerm)
    (sspid termset_id new_path : String) :
    ∀ (fuel : Nat) (store : List ITerm) (prev : String),
      List.Chain' (fun a b => a.newName ≠ b.newName)
        (buildTaxonomyPath env fuel store sspid termset_id new_path prev).2 ∧
      (∀ r : CreateReq,
        (buildTaxonomyPath env fuel store sspid termset_id
          new_path prev).2.head? = some r → r.newName ≠ prev) := by
  intro fuel
  induction fuel with
  | zero =>
      intro store prev
      constructor
      · simp [buildTaxonomyPath]
      · intro r hr
        simp [buildTaxonomyPath] at hr
  | succ f ih =>
      intro store prev
      cases hget : (splitSemi new_path)[((getTaxonomyClosestParent store
          new_path).1 + 1).toNat]? with
      | none =>
          rw [build_step_done env f store sspid termset_id new_path prev hget]
          simp
      | some n =>
          by_cases hprev : n = prev
          · rw [build_step_guard env f store sspid termset_id new_path prev n
              hget hprev]
            simp
          · by_cases hempty : n = ""
            · subst hempty
              rw [build_step_empty env f store sspid termset_id new_path prev
                hget hprev]
              simp
            · rw [build_step_rec env f store sspid termset_id new_path prev n
                hget hprev hempty]
              obtain ⟨ihc, ihh⟩ := ih
                (env store (buildParentReq sspid termset_id n
                  (getTaxonomyClosestParent store new_path).2)) n
              constructor
              · rw [List.chain'_cons']
                refine ⟨?_, ihc⟩
                intro b hb
                have hbn : b.newName ≠ n := ihh b hb
                rw [buildParentReq_newName]
                exact fun hh => hbn hh.symm
              · intro r hr
                simp only [List.head?_cons, Option.some_inj] at hr
                rw [← hr, buildParentReq_newName]
                exact hprev

/-- C9.  The self-creation guard of `buildTaxonomyPath` and termination of
the creation loop: when the re-resolved next segment equals the segment just
created, the call rejects with the Error message and issues no further write;
along any run, no two consecutive creation writes carry the same segment
name; and, provided a write never removes existing terms from the store, the
recursion always settles within one step per path segment plus one (it never
exhausts that much fuel), even when a write leaves the store unchanged. -/
theorem spec_C9_build_guard_and_termination
    (env : List ITerm → CreateReq → List ITerm)
    (hmono : ∀ (st : List ITerm) (req : CreateReq) (t : ITerm),
      t ∈ st → t ∈ env st req)
    (sspid termset_id new_path : String) :
    (∀ (fuel : Nat) (store : List ITerm) (prev n : String),
      (splitSemi new_path)[((getTaxonomyClosestParent store
        new_path).1 + 1).toNat]? = some n →
      n = prev →
      buildTaxonomyPath env (fuel + 1) store sspid termset_id new_path prev =
        (some (.error (buildFailMsg n termset_id sspid)), [])) ∧
    (∀ (fuel : Nat) (store : List ITerm) (prev : String),
      List.Chain' (fun a b => a.newName ≠ b.newName)
        (buildTaxonomyPath env fuel store sspid termset_id new_path prev).2) ∧
    (∀ (fuel : Nat) (store : List ITerm) (prev : String),
      (splitSemi new_path).length + 1 ≤ fuel →
      (buildTaxonomyPath env fuel store sspid termset_id new_path prev).1 ≠
        none) := by
  refine ⟨?_, ?_, ?_⟩
  · intro fuel store prev n hget he
    exact build_step_guard env fuel store sspid termset_id new_path prev n
      hget he
  · intro fuel store prev
    exact (build_writes_chain env sspid termset_id new_path fuel store prev).1
  · intro fuel store prev hfuel
    apply build_no_fuel_exhaustion env hmono sspid termset_id new_path fuel
      store prev
    omega

/-- Concrete terms and a write effect used to exercise the taxonomy
algorithms: a store containing the path `A` and the path `A;B` (with two
variants differing only in the identifier of the deepest term), and the
degenerate write effect that leaves the store unchanged. -/
def tmA : ITerm := ⟨"idA", "A", false, "A"⟩

def tmAB : ITerm := ⟨"idB", "B", false, "A;B"⟩

def tmABalt : ITerm := ⟨"idX", "B", false, "A;B"⟩

def envKeep : List ITerm → CreateReq → List ITerm := fun st _ => st

theorem spec_C9_witness :
    (buildTaxonomyPath envKeep 4 [tmA, tmAB] "ssp" "ts" "A;B" "").1 ≠ none :=
  (spec_C9_build_guard_and_termination envKeep
    (fun st req t ht => ht) "ssp" "ts" "A;B").2.2 4 [tmA, tmAB] ""
    (by decide)

/-- C4 (amended).  When the requested path already exists in full — the
closest-prefix score equals the index of the last segment — the builder
performs zero creation writes; but its result is the boolean `true`
(`Promise<boolean>` in the source), not the matched term's identifier. -/
theorem spec_C4_full_path_no_writes
    (env : List ITerm → CreateReq → List ITerm) (fuel : Nat)
    (store : List ITerm) (sspid termset_id new_path : String)
    (h : (getTaxonomyClosestParent store new_path).1 =
      ((splitSemi new_path).length : Int) - 1) :
    buildTaxonomyPath env (fuel + 1) store sspid termset_id new_path "" =
      (some (.ok true), []) := by
  apply build_step_done
  have h2 : ((getTaxonomyClosestParent store new_path).1 + 1).toNat =
      (splitSemi new_path).length := by
    rw [h]
    omega
  rw [h2]
  exact List.getElem?_eq_none (le_refl _)

/-- C4 counterexample.  On the store holding paths `A` and `A;B`, requesting
`A;B` satisfies the claim's precondition (score = index of the last segment)
and performs zero writes, but resolves with the boolean `true`; on a second
store identical except that the matched term's identifier is `idX` instead of
`idB`, the result is the very same `true` — so the result cannot be the
matched term's identifier, refuting that part of the claim. -/
theorem spec_C4_counterexample :
    (getTaxonomyClosestParent [tmA, tmAB] "A;B").1 =
        ((splitSemi "A;B").length : Int) - 1 ∧
      (getTaxonomyClosestParent [tmA, tmAB] "A;B").2 = some tmAB ∧
      (getTaxonomyClosestParent [tmA, tmABalt] "A;B").2 = some tmABalt ∧
      tmAB.Id = "idB" ∧ tmABalt.Id = "idX" ∧
      buildTaxonomyPath envKeep 3 [tmA, tmAB] "ssp" "ts" "A;B" "" =
        (some (.ok true), []) ∧
      buildTaxonomyPath envKeep 3 [tmA, tmABalt] "ssp" "ts" "A;B" "" =
        (some (.ok true), []) :=
  ⟨rfl, rfl, rfl, rfl, rfl, rfl, rfl⟩

theorem spec_C4_witness :
    buildTaxonomyPath envKeep 3 [tmA, tmAB] "ssp" "ts" "A;B" "" =
      (some (.ok true), []) :=
  spec_C4_full_path_no_writes envKeep 2 [tmA, tmAB] "ssp" "ts" "A;B"
    (by decide)

end SPF

